import Mathlib

/-!
# Request Correlation Bridge — verification development

Shallow embedding of the pending-request ledger (`BridgeService` in
`src/index.ts`) together with the HTTP handlers of the long-poll dispatch
protocol (`src/http-server.ts`, the later revision with batching and long
polling), and proofs of the specified properties.

Modelling conventions:
* The JavaScript `Map<string, PendingRequest>` is embedded as an
  insertion-ordered association list.  `Map.set` replaces in place when the
  key is present and appends otherwise; `Map.get` returns the entry for the
  key; `Map.delete` removes the key's entry (keys are unique in a `Map`, so
  removing every pair with that key is the same operation).
* Promise settlement (`request.resolve(v)` / `request.reject(e)`) is
  embedded as an emitted `SettleEvent`; every operation returns the list of
  settlements it performed, in order.
* `setTimeout`/`clearTimeout`: the timer callback is embedded as the
  `timeoutFire` transition.  The callback itself guards on
  `pendingRequests.has(requestId)`, so a timer firing after settlement is a
  no-op whether or not `clearTimeout` got to it first; timer cancellation
  therefore needs no extra state.
* `Date.now()` is an explicit `now : Nat` argument.
* Request payloads (`data: unknown`) are a type parameter `α`; settlement
  values may be absent in JS (`undefined`), embedded as `Option α`.
-/

/-- `Map.get`: value stored at the key, looking left to right. -/
def mapGet {β : Type} : List (String × β) → String → Option β
  | [], _ => none
  | (k, v) :: m, id => if k = id then some v else mapGet m id

/-- `Map.set`: replace in place when the key is present, else append. -/
def mapSet {β : Type} : List (String × β) → String → β → List (String × β)
  | [], id, v => [(id, v)]
  | (k, w) :: m, id, v => if k = id then (id, v) :: m else (k, w) :: mapSet m id v

/-- `Map.delete`: drop the key's entry. -/
def mapDelete {β : Type} : List (String × β) → String → List (String × β)
  | [], _ => []
  | (k, v) :: m, id => if k = id then mapDelete m id else (k, v) :: mapDelete m id

/-- `Map.has`. -/
def mapHas {β : Type} (m : List (String × β)) (id : String) : Bool :=
  (mapGet m id).isSome

/-- One in-flight request (interface `PendingRequest` in `bridge-service.ts`;
the `resolve`/`reject` callbacks and `timeoutId` are embedded as settlement
events and the `timeoutFire` transition). -/
structure PendingRequest (α : Type) where
  id : String
  endpoint : String
  data : α
  timestamp : Nat
deriving DecidableEq

/-- The rejection values the bridge produces or forwards:
`new Error('Request timeout')`, `new Error('Connection closed')`, or a
peer-supplied error payload. -/
inductive BridgeError where
  | timeout
  | connectionClosed
  | peer (msg : String)
deriving DecidableEq

/-- The `message` of the underlying JS error value. -/
def BridgeError.message : BridgeError → String
  | .timeout => "Request timeout"
  | .connectionClosed => "Connection closed"
  | .peer m => m

/-- A promise settlement performed by a bridge operation. -/
inductive SettleEvent (α : Type) where
  | resolved (id : String) (value : Option α)
  | rejected (id : String) (error : BridgeError)
deriving DecidableEq

/-- The id of the request whose promise the event settles. -/
def SettleEvent.targetId {α : Type} : SettleEvent α → String
  | .resolved i _ => i
  | .rejected i _ => i

/-- Is the event a rejection? -/
def SettleEvent.isRejection {α : Type} : SettleEvent α → Bool
  | .rejected _ _ => true
  | .resolved _ _ => false

/-- The mutable state of `BridgeService`: the pending-request map and the
FIFO queue of request ids. -/
structure BridgeState (α : Type) where
  pendingRequests : List (String × PendingRequest α)
  requestQueue : List String
deriving DecidableEq

/-- `requestTimeout` constant: 30 seconds. -/
def requestTimeout : Nat := 30000

/-- The registration step of `sendRequest(endpoint, data)`: a fresh
`requestId` and the current time are passed explicitly; the request is put
in the map and its id appended to the FIFO queue.  (The returned promise is
the one later settled by events carrying this id.) -/
def sendRequest {α : Type} (s : BridgeState α) (requestId endpoint : String)
    (data : α) (now : Nat) : BridgeState α :=
  { pendingRequests := mapSet s.pendingRequests requestId
      ⟨requestId, endpoint, data, now⟩,
    requestQueue := s.requestQueue ++ [requestId] }

/-- `removeFromQueue`: `indexOf` + `splice`, i.e. drop the first occurrence. -/
def removeFromQueue : List String → String → List String
  | [], _ => []
  | x :: xs, id => if x = id then xs else x :: removeFromQueue xs id

/-- The `setTimeout` callback armed by `sendRequest`: if the request is
still pending, remove it from queue and map and reject with
`Request timeout`; otherwise do nothing. -/
def timeoutFire {α : Type} (s : BridgeState α) (requestId : String) :
    BridgeState α × List (SettleEvent α) :=
  if mapHas s.pendingRequests requestId then
    ({ pendingRequests := mapDelete s.pendingRequests requestId,
       requestQueue := removeFromQueue s.requestQueue requestId },
     [.rejected requestId .timeout])
  else (s, [])

/-- What `/poll` hands to the peer for one request:
`{requestId, request: {endpoint, data}}`. -/
structure PendingItem (α : Type) where
  requestId : String
  endpoint : String
  data : α
deriving DecidableEq

/-- Projection used by `getPendingRequest`/`getPendingRequests`. -/
def toItem {α : Type} (r : PendingRequest α) : PendingItem α :=
  ⟨r.id, r.endpoint, r.data⟩

/-- Loop body of `getPendingRequest`: pop stale ids off the queue head until
a live entry is found (returned together with the surviving queue). -/
def getPendingRequestGo {α : Type} (m : List (String × PendingRequest α)) :
    List String → Option (PendingItem α) × List String
  | [] => (none, [])
  | id :: rest =>
    match mapGet m id with
    | some r => (some (toItem r), id :: rest)
    | none => getPendingRequestGo m rest

/-- `getPendingRequest()`: oldest live request, lazily dropping stale ids. -/
def getPendingRequest {α : Type} (s : BridgeState α) :
    Option (PendingItem α) × BridgeState α :=
  let res := getPendingRequestGo s.pendingRequests s.requestQueue
  (res.1, { s with requestQueue := res.2 })

/-- Loop of `getPendingRequests(maxCount)`: scan the queue left to right
while fewer than `maxCount` results are collected; live entries are
collected (and kept in the queue), stale ids scanned over are spliced out;
the unscanned tail is kept. -/
def getPendingRequestsGo {α : Type} (m : List (String × PendingRequest α)) :
    Nat → List String → List (PendingItem α) × List String
  | _, [] => ([], [])
  | 0, q => ([], q)
  | Nat.succ k, id :: rest =>
    match mapGet m id with
    | some r =>
      let res := getPendingRequestsGo m k rest
      (toItem r :: res.1, id :: res.2)
    | none => getPendingRequestsGo m (Nat.succ k) rest

/-- `getPendingRequests(maxCount)`: up to `maxCount` oldest live requests. -/
def getPendingRequests {α : Type} (maxCount : Nat) (s : BridgeState α) :
    List (PendingItem α) × BridgeState α :=
  let res := getPendingRequestsGo s.pendingRequests maxCount s.requestQueue
  (res.1, { s with requestQueue := res.2 })

/-- `hasPendingRequest(requestId)`. -/
def hasPendingRequest {α : Type} (s : BridgeState α) (requestId : String) : Bool :=
  mapHas s.pendingRequests requestId

/-- `getPendingCount()` (`Map.size`). -/
def getPendingCount {α : Type} (s : BridgeState α) : Nat :=
  s.pendingRequests.length

/-- `resolveRequest(requestId, response)`: if live, cancel the timer, remove
from queue and map, resolve the promise, return `true`; else `false`. -/
def resolveRequest {α : Type} (s : BridgeState α) (requestId : String)
    (response : Option α) : Bool × BridgeState α × List (SettleEvent α) :=
  match mapGet s.pendingRequests requestId with
  | some r =>
    (true,
     { pendingRequests := mapDelete s.pendingRequests requestId,
       requestQueue := removeFromQueue s.requestQueue requestId },
     [.resolved r.id response])
  | none => (false, s, [])

/-- `rejectRequest(requestId, error)`: mirror image of `resolveRequest`. -/
def rejectRequest {α : Type} (s : BridgeState α) (requestId : String)
    (error : BridgeError) : Bool × BridgeState α × List (SettleEvent α) :=
  match mapGet s.pendingRequests requestId with
  | some r =>
    (true,
     { pendingRequests := mapDelete s.pendingRequests requestId,
       requestQueue := removeFromQueue s.requestQueue requestId },
     [.rejected r.id error])
  | none => (false, s, [])

/-- One element of the `responses` array accepted by `resolveRequests`
(interface `BatchResponse`). -/
structure BatchResponse (α : Type) where
  requestId : String
  response : Option α
  error : Option String
deriving DecidableEq

/-- JS truthiness of an optional string field: `undefined` and `""` are
falsy, every other string is truthy. -/
def truthyStr : Option String → Bool
  | none => false
  | some s => !s.isEmpty

/-- Loop body of `resolveRequests`: `if (resp.error)` reject, else resolve
with `resp.response`. -/
def batchStep {α : Type} (s : BridgeState α) (resp : BatchResponse α) :
    Bool × BridgeState α × List (SettleEvent α) :=
  match resp.error with
  | some e =>
    if e.isEmpty then resolveRequest s resp.requestId resp.response
    else rejectRequest s resp.requestId (.peer e)
  | none => resolveRequest s resp.requestId resp.response

/-- `resolveRequests(responses)`: fold the entries in order, tallying
`resolved` (successful settlements, whether resolutions or rejections) and
`notFound`. -/
def resolveRequests {α : Type} :
    BridgeState α → List (BatchResponse α) →
    (Nat × Nat) × BridgeState α × List (SettleEvent α)
  | s, [] => ((0, 0), s, [])
  | s, resp :: rest =>
    match batchStep s resp with
    | (ok, s1, evs) =>
      match resolveRequests s1 rest with
      | ((resolvedN, notFoundN), s2, evsRest) =>
        ((if ok then resolvedN + 1 else resolvedN,
          if ok then notFoundN else notFoundN + 1),
         s2, evs ++ evsRest)

/-- Loop of `cleanupOldRequests`: iterate over the entries present when the
sweep starts (deleting only the entry under the cursor, so iterating the
snapshot matches the JS `Map` iteration); expired entries are removed from
queue and map and rejected with `Request timeout`. -/
def cleanupGo {α : Type} (now : Nat) :
    List (String × PendingRequest α) → BridgeState α →
    BridgeState α × List (SettleEvent α)
  | [], s => (s, [])
  | (id, r) :: rest, s =>
    if now - r.timestamp > requestTimeout then
      let s1 : BridgeState α :=
        { pendingRequests := mapDelete s.pendingRequests id,
          requestQueue := removeFromQueue s.requestQueue id }
      let res := cleanupGo now rest s1
      (res.1, SettleEvent.rejected id .timeout :: res.2)
    else
      cleanupGo now rest s

/-- `cleanupOldRequests()`: the periodic sweep. -/
def cleanupOldRequests {α : Type} (now : Nat) (s : BridgeState α) :
    BridgeState α × List (SettleEvent α) :=
  cleanupGo now s.pendingRequests s

/-- `clearAllPendingRequests()`: reject every pending request with
`Connection closed`, cancel its timer, then empty map and queue. -/
def clearAllPendingRequests {α : Type} (s : BridgeState α) :
    BridgeState α × List (SettleEvent α) :=
  (⟨[], []⟩,
   s.pendingRequests.map (fun p => SettleEvent.rejected p.2.id .connectionClosed))

/-!
## Connection state and HTTP handlers

The connection bookkeeping closed over by `createHttpServer`, and the
handlers the claims are about.  `isMCPServerActiveV1` is the earlier
revision of `isMCPServerActive` (15-second activity window); the later
revision (`isMCPServerActiveV2`) returns the flag alone, and is the one the
batching server uses.
-/

/-- The five `let` bindings of `createHttpServer`. -/
structure ConnState where
  pluginConnected : Bool
  mcpServerActive : Bool
  lastMCPActivity : Nat
  mcpServerStartTime : Nat
  lastPluginActivity : Nat
deriving DecidableEq

/-- Initial connection state (all flags false, all timestamps 0). -/
def initConn : ConnState := ⟨false, false, 0, 0, 0⟩

/-- `setMCPServerActive(active)`. -/
def setMCPServerActive (c : ConnState) (active : Bool) (now : Nat) : ConnState :=
  if active then
    { c with mcpServerActive := true, mcpServerStartTime := now,
             lastMCPActivity := now }
  else
    { c with mcpServerActive := false, mcpServerStartTime := 0,
             lastMCPActivity := 0 }

/-- `trackMCPActivity()`. -/
def trackMCPActivity (c : ConnState) (now : Nat) : ConnState :=
  if c.mcpServerActive then { c with lastMCPActivity := now } else c

/-- `isMCPServerActive()` — earlier revision: active flag, timing out after
15 seconds without MCP activity. -/
def isMCPServerActiveV1 (c : ConnState) (now : Nat) : Bool :=
  c.mcpServerActive && decide (now - c.lastMCPActivity < 15000)

/-- `isMCPServerActive()` — later revision: the flag alone (sticky). -/
def isMCPServerActiveV2 (c : ConnState) : Bool :=
  c.mcpServerActive

/-- `isPluginConnected()`: ready flag with a 10-second activity window. -/
def isPluginConnected (c : ConnState) (now : Nat) : Bool :=
  c.pluginConnected && decide (now - c.lastPluginActivity < 10000)

/-- Response of `POST /disconnect` (and `POST /ready`): `{success:true}`. -/
structure SimpleResponse where
  status : Nat
  success : Bool
deriving DecidableEq

/-- `POST /disconnect` handler: mark the plugin not connected, clear every
pending request, answer `{success:true}`. -/
def disconnectHandler {α : Type} (c : ConnState) (s : BridgeState α) :
    SimpleResponse × ConnState × BridgeState α × List (SettleEvent α) :=
  let cleared := clearAllPendingRequests s
  (⟨200, true⟩, { c with pluginConnected := false }, cleared.1, cleared.2)

/-- Body of `POST /response` as destructured by the handler
(`{requestId, response, error, responses}`); a `none` in `responses` covers
both an absent field and a non-array value, which take the same branch. -/
structure ResponseBody (α : Type) where
  requestId : Option String
  response : Option α
  error : Option String
  responses : Option (List (BatchResponse α))

/-- What the `/response` handler sends back. -/
structure ResponseResult where
  status : Nat
  success : Bool
  resolved : Option Nat
  notFound : Option Nat
  errorMsg : Option String
deriving DecidableEq

/-- `POST /response` handler (batching revision): batch mode when a
`responses` array is present; single mode when `requestId` is truthy
(404 when unknown); 400 otherwise. -/
def postResponseV2 {α : Type} (body : ResponseBody α) (s : BridgeState α) :
    ResponseResult × BridgeState α × List (SettleEvent α) :=
  match body.responses with
  | some rs =>
    let res := resolveRequests s rs
    (⟨200, true, some res.1.1, some res.1.2, none⟩, res.2.1, res.2.2)
  | none =>
    if truthyStr body.requestId then
      let rid := body.requestId.getD ""
      if !hasPendingRequest s rid then
        (⟨404, false, none, none, some "Request not found or already resolved"⟩,
         s, [])
      else if truthyStr body.error then
        let r := rejectRequest s rid (.peer (body.error.getD ""))
        (⟨200, true, none, none, none⟩, r.2.1, r.2.2)
      else
        let r := resolveRequest s rid body.response
        (⟨200, true, none, none, none⟩, r.2.1, r.2.2)
    else
      (⟨400, false, none, none, some "requestId or responses array is required"⟩,
       s, [])

/-- `pollInterval` of `waitForRequests`: 50 ms between ledger checks. -/
def pollInterval : Nat := 50

/-- Loop of `waitForRequests`: check `k`-th snapshot (the bridge state
observable at elapsed time `pollInterval * k`; the environment `env`
accounts for the operations other tasks run while this loop sleeps); return
the first non-empty batch, or `[]` once the wait budget is spent.  The fuel
is the number of iterations with `pollInterval * k < maxWaitMs`. -/
def waitGo {α : Type} (env : Nat → BridgeState α) (maxBatchSize : Nat) :
    Nat → Nat → List (PendingItem α) × BridgeState α
  | 0, k => ([], env k)
  | fuel + 1, k =>
    let res := getPendingRequests maxBatchSize (env k)
    if res.1.isEmpty then waitGo env maxBatchSize fuel (k + 1) else res

/-- `waitForRequests(bridge, maxWaitMs, maxBatchSize)`. -/
def waitForRequests {α : Type} (env : Nat → BridgeState α)
    (maxWaitMs maxBatchSize : Nat) : List (PendingItem α) × BridgeState α :=
  waitGo env maxBatchSize ((maxWaitMs + pollInterval - 1) / pollInterval) 0

/-- `parseInt(x) || dflt`: an absent or unparsable parameter and the (falsy)
value 0 both yield the default. -/
def parseOr (p : Option Nat) (dflt : Nat) : Nat :=
  match p with
  | none => dflt
  | some n => if n = 0 then dflt else n

/-- `Math.min(parseInt(req.query.maxWait) || 5000, 30000)`. -/
def clampMaxWait (p : Option Nat) : Nat :=
  min (parseOr p 5000) 30000

/-- `Math.min(parseInt(req.query.maxBatch) || 10, 50)`. -/
def clampMaxBatch (p : Option Nat) : Nat :=
  min (parseOr p 10) 50

/-- Query string of `GET /poll` (raw values; `maxWait`/`maxBatch` are the
`parseInt` results, `none` when absent or not a number). -/
structure PollQuery where
  longPoll : Option String
  maxWait : Option Nat
  maxBatch : Option Nat

/-- Body and status sent by `GET /poll`. -/
structure PollResponse (α : Type) where
  status : Nat
  errorMsg : Option String
  requests : List (PendingItem α)
  mcpConnected : Bool
  pluginConnected : Bool
  batchSize : Option Nat
deriving DecidableEq

/-- `GET /poll` handler (batching revision).  Records plugin activity,
refreshes MCP activity when the flag is set, then either fails with 503
(dispatcher inactive) before consulting the bridge, or serves a batch
(long-polling by default).  The two JS response branches both send
`requests` with `batchSize = requests.length`, folded into one here. -/
def pollHandlerV2 {α : Type} (c : ConnState) (s : BridgeState α)
    (q : PollQuery) (now : Nat) (env : Nat → BridgeState α) :
    PollResponse α × ConnState × BridgeState α :=
  let c1 := { c with pluginConnected := true, lastPluginActivity := now }
  let c2 := if c1.mcpServerActive then { c1 with lastMCPActivity := now } else c1
  if !isMCPServerActiveV2 c2 then
    (⟨503, some "MCP server not connected", [], false, true, none⟩, c2, s)
  else
    let c3 := trackMCPActivity c2 now
    let lp := q.longPoll ≠ some "false"
    let mw := clampMaxWait q.maxWait
    let mb := clampMaxBatch q.maxBatch
    let res := if lp then waitForRequests env mw mb
               else getPendingRequests mb s
    (⟨200, none, res.1, true, true, some res.1.length⟩, c3, res.2)

/-!
## Basic lemmas about the embedded `Map` and the FIFO queue
-/

theorem mapGet_eq_none_of_not_mem {β : Type} {m : List (String × β)} {id : String}
    (h : id ∉ m.map Prod.fst) : mapGet m id = none := by
  induction m with
  | nil => rfl
  | cons p m ih =>
    obtain ⟨k, v⟩ := p
    simp only [List.map_cons, List.mem_cons, not_or] at h
    have hk : ¬ k = id := fun e => h.1 e.symm
    simp [mapGet, hk, ih h.2]

theorem not_mem_of_mapGet_eq_none {β : Type} {m : List (String × β)} {id : String}
    (h : mapGet m id = none) : id ∉ m.map Prod.fst := by
  induction m with
  | nil => simp
  | cons p m ih =>
    obtain ⟨k, v⟩ := p
    by_cases hk : k = id
    · simp [mapGet, hk] at h
    · simp only [mapGet, if_neg hk] at h
      simp only [List.map_cons, List.mem_cons, not_or]
      exact ⟨fun e => hk e.symm, ih h⟩

theorem mapGet_some_mem {β : Type} {m : List (String × β)} {id : String} {v : β}
    (h : mapGet m id = some v) : (id, v) ∈ m := by
  induction m with
  | nil => simp [mapGet] at h
  | cons p m ih =>
    obtain ⟨k, w⟩ := p
    by_cases hk : k = id
    · simp only [mapGet, if_pos hk] at h
      injection h with h
      subst h
      subst hk
      exact List.mem_cons_self _ _
    · simp only [mapGet, if_neg hk] at h
      exact List.mem_cons_of_mem _ (ih h)

theorem mapGet_of_mem_nodup {β : Type} {m : List (String × β)} {id : String} {v : β}
    (hnd : (m.map Prod.fst).Nodup) (h : (id, v) ∈ m) : mapGet m id = some v := by
  induction m with
  | nil => simp at h
  | cons p m ih =>
    simp only [List.map_cons, List.nodup_cons] at hnd
    rcases List.mem_cons.1 h with he | hm
    · subst he
      simp [mapGet]
    · have hk : p.1 ≠ id := by
        intro hpk
        exact hnd.1 (hpk ▸ (List.mem_map.2 ⟨(id, v), hm, rfl⟩))
      simp only [mapGet, if_neg hk]
      exact ih hnd.2 hm

theorem mapGet_isSome_of_mem_keys {β : Type} {m : List (String × β)} {id : String}
    (h : id ∈ m.map Prod.fst) : (mapGet m id).isSome = true := by
  cases hg : mapGet m id with
  | some v => rfl
  | none => exact absurd h (not_mem_of_mapGet_eq_none hg)

theorem mapSet_fresh {β : Type} {m : List (String × β)} {id : String} (v : β)
    (h : mapGet m id = none) : mapSet m id v = m ++ [(id, v)] := by
  induction m with
  | nil => rfl
  | cons p m ih =>
    by_cases hk : p.1 = id
    · simp only [mapGet, if_pos hk] at h
      cases h
    · simp only [mapGet, if_neg hk] at h
      cases p
      simp_all [mapSet, if_neg hk]

theorem mapDelete_of_not_mem {β : Type} {m : List (String × β)} {id : String}
    (h : id ∉ m.map Prod.fst) : mapDelete m id = m := by
  induction m with
  | nil => rfl
  | cons p m ih =>
    obtain ⟨k, v⟩ := p
    simp only [List.map_cons, List.mem_cons, not_or] at h
    have hk : ¬ k = id := fun e => h.1 e.symm
    simp [mapDelete, hk, ih h.2]

theorem mapGet_mapDelete_self {β : Type} (m : List (String × β)) (id : String) :
    mapGet (mapDelete m id) id = none := by
  induction m with
  | nil => rfl
  | cons p m ih =>
    by_cases hk : p.1 = id
    · simpa [mapDelete, hk]
    · simpa [mapDelete, hk, mapGet] using ih

theorem mapGet_mapDelete_none {β : Type} {m : List (String × β)} {k : String}
    (id : String) (h : mapGet m k = none) : mapGet (mapDelete m id) k = none := by
  induction m with
  | nil => rfl
  | cons p m ih =>
    by_cases hpk : p.1 = k
    · simp only [mapGet, if_pos hpk] at h
      cases h
    · simp only [mapGet, if_neg hpk] at h
      by_cases hid : p.1 = id
      · simpa [mapDelete, hid] using ih h
      · simpa [mapDelete, hid, mapGet, hpk] using ih h

theorem mapDelete_keys_ne {β : Type} {m : List (String × β)} {id : String} :
    ∀ p ∈ mapDelete m id, p.1 ≠ id := by
  induction m with
  | nil => simp [mapDelete]
  | cons q m ih =>
    obtain ⟨k, v⟩ := q
    by_cases hk : k = id
    · simpa [mapDelete, hk] using ih
    · intro p hp
      simp only [mapDelete, if_neg hk] at hp
      rcases List.mem_cons.1 hp with he | hm
      · subst he
        exact hk
      · exact ih p hm

theorem mapDelete_sublist {β : Type} (m : List (String × β)) (id : String) :
    (mapDelete m id).Sublist m := by
  induction m with
  | nil => simp [mapDelete]
  | cons p m ih =>
    obtain ⟨k, v⟩ := p
    by_cases hk : k = id
    · simp only [mapDelete, if_pos hk]
      exact ih.cons _
    · simp only [mapDelete, if_neg hk]
      exact ih.cons₂ _

theorem removeFromQueue_keys_delete {β : Type} {m : List (String × β)} (id : String)
    (hnd : (m.map Prod.fst).Nodup) :
    removeFromQueue (m.map Prod.fst) id = (mapDelete m id).map Prod.fst := by
  induction m with
  | nil => rfl
  | cons p m ih =>
    obtain ⟨k, v⟩ := p
    simp only [List.map_cons, List.nodup_cons] at hnd
    by_cases hk : k = id
    · subst hk
      simp [removeFromQueue, mapDelete, mapDelete_of_not_mem hnd.1]
    · simp only [List.map_cons, removeFromQueue, if_neg hk, mapDelete, if_neg hk]
      rw [ih hnd.2]

/-!
## The queue/map invariant and scan lemmas
-/

/-- Well-formedness of the ledger: the FIFO queue lists exactly the keys of
the pending map, in insertion order, and the keys are unique (as the keys
of a JS `Map` always are). -/
def Wf {α : Type} (s : BridgeState α) : Prop :=
  s.requestQueue = s.pendingRequests.map Prod.fst ∧
  (s.pendingRequests.map Prod.fst).Nodup

theorem Wf_settled {α : Type} {s : BridgeState α} (h : Wf s) (id : String) :
    Wf (⟨mapDelete s.pendingRequests id,
         removeFromQueue s.requestQueue id⟩ : BridgeState α) := by
  obtain ⟨hq, hnd⟩ := h
  refine ⟨?_, ?_⟩
  · rw [hq]
    exact removeFromQueue_keys_delete id hnd
  · exact List.Nodup.sublist ((mapDelete_sublist _ _).map Prod.fst) hnd

theorem allLive_of_wf {α : Type} {s : BridgeState α} (h : Wf s) :
    ∀ id ∈ s.requestQueue, (mapGet s.pendingRequests id).isSome = true := by
  intro id hid
  exact mapGet_isSome_of_mem_keys (h.1 ▸ hid)

theorem getPendingRequestGo_all_live {α : Type}
    (m : List (String × PendingRequest α)) (q : List String)
    (h : ∀ id ∈ q, (mapGet m id).isSome = true) :
    (getPendingRequestGo m q).2 = q := by
  cases q with
  | nil => rfl
  | cons id rest =>
    have hs := h id (List.mem_cons_self _ _)
    cases hg : mapGet m id with
    | none => rw [hg] at hs; simp at hs
    | some r => simp [getPendingRequestGo, hg]

theorem getPendingRequestsGo_all_live {α : Type}
    (m : List (String × PendingRequest α)) :
    ∀ (k : Nat) (q : List String),
      (∀ id ∈ q, (mapGet m id).isSome = true) →
      (getPendingRequestsGo m k q).2 = q := by
  intro k q
  induction q generalizing k with
  | nil => intro _; cases k <;> rfl
  | cons id rest ih =>
    intro h
    cases k with
    | zero => rfl
    | succ k =>
      have hs := h id (List.mem_cons_self _ _)
      cases hg : mapGet m id with
      | none => rw [hg] at hs; simp at hs
      | some r =>
        simp only [getPendingRequestsGo, hg]
        simp [ih k (fun i hi => h i (List.mem_cons_of_mem _ hi))]

theorem getPendingRequestGo_entries {α : Type}
    (m : List (String × PendingRequest α)) (l : List (String × PendingRequest α))
    (h : ∀ p ∈ l, mapGet m p.1 = some p.2) :
    (getPendingRequestGo m (l.map Prod.fst)).1 =
      l.head?.map (fun p => toItem p.2) := by
  cases l with
  | nil => rfl
  | cons p rest =>
    obtain ⟨id, r⟩ := p
    have hg := h (id, r) (List.mem_cons_self _ _)
    simp only [Prod.fst] at hg
    simp [getPendingRequestGo, hg]

theorem getPendingRequestsGo_entries {α : Type}
    (m : List (String × PendingRequest α)) :
    ∀ (k : Nat) (l : List (String × PendingRequest α)),
      (∀ p ∈ l, mapGet m p.1 = some p.2) →
      (getPendingRequestsGo m k (l.map Prod.fst)).1 =
        (l.take k).map (fun p => toItem p.2) := by
  intro k l
  induction l generalizing k with
  | nil => intro _; cases k <;> rfl
  | cons p rest ih =>
    intro h
    obtain ⟨id, r⟩ := p
    cases k with
    | zero => simp [getPendingRequestsGo]
    | succ k =>
      have hg : mapGet m id = some r := h (id, r) (List.mem_cons_self _ _)
      simp only [List.map_cons, getPendingRequestsGo, hg]
      simp [ih k (fun q hq => h q (List.mem_cons_of_mem _ hq))]

/-!
## Sequences of submissions
-/

/-- One submission as the bridge records it: the generated uuid, the
endpoint, the payload, and `Date.now()` at creation. -/
structure SubmitReq (α : Type) where
  id : String
  endpoint : String
  data : α
  timestamp : Nat
deriving DecidableEq

/-- Map entry a submission creates. -/
def entryOf {α : Type} (r : SubmitReq α) : String × PendingRequest α :=
  (r.id, ⟨r.id, r.endpoint, r.data, r.timestamp⟩)

/-- Poll item a submission is delivered as. -/
def itemOf {α : Type} (r : SubmitReq α) : PendingItem α :=
  ⟨r.id, r.endpoint, r.data⟩

/-- Register a sequence of requests in order. -/
def sendAll {α : Type} : BridgeState α → List (SubmitReq α) → BridgeState α
  | s, [] => s
  | s, r :: rest => sendAll (sendRequest s r.id r.endpoint r.data r.timestamp) rest

theorem sendAll_spec {α : Type} :
    ∀ (reqs : List (SubmitReq α)) (s : BridgeState α),
      (s.pendingRequests.map Prod.fst ++ reqs.map SubmitReq.id).Nodup →
      (sendAll s reqs).pendingRequests = s.pendingRequests ++ reqs.map entryOf ∧
      (sendAll s reqs).requestQueue = s.requestQueue ++ reqs.map SubmitReq.id := by
  intro reqs
  induction reqs with
  | nil => intro s _; simp [sendAll]
  | cons r rest ih =>
    intro s hnd
    have hfresh : r.id ∉ s.pendingRequests.map Prod.fst := by
      intro hmem
      exact (List.nodup_append.1 hnd).2.2 hmem (by simp)
    have hget : mapGet s.pendingRequests r.id = none :=
      mapGet_eq_none_of_not_mem hfresh
    have hset := mapSet_fresh (m := s.pendingRequests)
      (⟨r.id, r.endpoint, r.data, r.timestamp⟩ : PendingRequest α) hget
    have hnd' : ((sendRequest s r.id r.endpoint r.data r.timestamp).pendingRequests.map
        Prod.fst ++ rest.map SubmitReq.id).Nodup := by
      simp only [sendRequest, hset, List.map_append, List.map_cons, List.map_nil]
      simpa [List.append_assoc] using hnd
    obtain ⟨h1, h2⟩ := ih _ hnd'
    constructor
    · show (sendAll (sendRequest s r.id r.endpoint r.data r.timestamp)
        rest).pendingRequests = _
      rw [h1]
      simp [sendRequest, hset, entryOf, List.append_assoc]
    · show (sendAll (sendRequest s r.id r.endpoint r.data r.timestamp)
        rest).requestQueue = _
      rw [h2]
      simp [sendRequest, List.append_assoc]

/-!
## Lemmas about the periodic sweep
-/

theorem cleanupGo_get_none {α : Type} (now : Nat) {k : String} :
    ∀ (l : List (String × PendingRequest α)) (s : BridgeState α),
      mapGet s.pendingRequests k = none →
      mapGet (cleanupGo now l s).1.pendingRequests k = none := by
  intro l
  induction l with
  | nil => intro s h; exact h
  | cons p rest ih =>
    intro s h
    obtain ⟨id, r⟩ := p
    by_cases hc : now - r.timestamp > requestTimeout
    · simp only [cleanupGo, if_pos hc]
      exact ih _ (mapGet_mapDelete_none id h)
    · simp only [cleanupGo, if_neg hc]
      exact ih _ h

theorem cleanupGo_targets {α : Type} (now : Nat) :
    ∀ (l : List (String × PendingRequest α)) (s : BridgeState α),
      ∀ ev ∈ (cleanupGo now l s).2, ∃ p ∈ l, SettleEvent.targetId ev = p.1 := by
  intro l
  induction l with
  | nil => intro s ev hev; simp [cleanupGo] at hev
  | cons p rest ih =>
    intro s ev hev
    obtain ⟨id, r⟩ := p
    by_cases hc : now - r.timestamp > requestTimeout
    · simp only [cleanupGo, if_pos hc] at hev
      rcases List.mem_cons.1 hev with he | hm
      · subst he
        exact ⟨(id, r), List.mem_cons_self _ _, rfl⟩
      · obtain ⟨q, hq, hqe⟩ := ih _ ev hm
        exact ⟨q, List.mem_cons_of_mem _ hq, hqe⟩
    · simp only [cleanupGo, if_neg hc] at hev
      obtain ⟨q, hq, hqe⟩ := ih _ ev hev
      exact ⟨q, List.mem_cons_of_mem _ hq, hqe⟩

theorem cleanupGo_expired {α : Type} (now : Nat) :
    ∀ (l : List (String × PendingRequest α)) (s : BridgeState α)
      (id : String) (r : PendingRequest α),
      (id, r) ∈ l → now - r.timestamp > requestTimeout →
      SettleEvent.rejected id BridgeError.timeout ∈ (cleanupGo now l s).2 ∧
      mapGet (cleanupGo now l s).1.pendingRequests id = none := by
  intro l
  induction l with
  | nil => intro s id r h _; simp at h
  | cons p rest ih =>
    intro s id r hmem hexp
    rcases List.mem_cons.1 hmem with he | hm
    · subst he
      simp only [cleanupGo, if_pos hexp]
      refine ⟨List.mem_cons_self _ _, ?_⟩
      exact cleanupGo_get_none now rest _ (mapGet_mapDelete_self s.pendingRequests id)
    · obtain ⟨k0, r0⟩ := p
      by_cases hc : now - r0.timestamp > requestTimeout
      · simp only [cleanupGo, if_pos hc]
        obtain ⟨h1, h2⟩ := ih _ id r hm hexp
        exact ⟨List.mem_cons_of_mem _ h1, h2⟩
      · simp only [cleanupGo, if_neg hc]
        exact ih _ id r hm hexp

/-!
## Claim theorems
-/

/-- C1 — FIFO retrieval order: for every sequence of requests registered by
`sendRequest` (fresh, pairwise distinct ids), as long as none of them has
been settled or expired, `getPendingRequest` returns the oldest request and
`getPendingRequests maxCount` returns the requests in enqueue order, oldest
first, with at most `maxCount` entries. -/
theorem fifo_retrieval_order {α : Type} (reqs : List (SubmitReq α))
    (hnodup : (reqs.map SubmitReq.id).Nodup) :
    (getPendingRequest (sendAll (⟨[], []⟩ : BridgeState α) reqs)).1 =
      reqs.head?.map itemOf ∧
    ∀ maxCount : Nat,
      (getPendingRequests maxCount (sendAll (⟨[], []⟩ : BridgeState α) reqs)).1 =
        (reqs.take maxCount).map itemOf ∧
      ((getPendingRequests maxCount
          (sendAll (⟨[], []⟩ : BridgeState α) reqs)).1).length ≤ maxCount := by
  obtain ⟨h1, h2⟩ := sendAll_spec reqs ⟨[], []⟩ (by simpa using hnodup)
  have hm : (sendAll (⟨[], []⟩ : BridgeState α) reqs).pendingRequests =
      reqs.map entryOf := by simpa using h1
  have hq : (sendAll (⟨[], []⟩ : BridgeState α) reqs).requestQueue =
      reqs.map SubmitReq.id := by simpa using h2
  have hkeys : (reqs.map entryOf).map Prod.fst = reqs.map SubmitReq.id := by
    simp only [List.map_map]
    rfl
  have hknd : ((reqs.map entryOf).map Prod.fst).Nodup := by
    rw [hkeys]; exact hnodup
  have hall : ∀ p ∈ reqs.map entryOf, mapGet (reqs.map entryOf) p.1 = some p.2 := by
    intro p hp
    obtain ⟨i, v⟩ := p
    exact mapGet_of_mem_nodup hknd hp
  constructor
  · simp only [getPendingRequest, hm, hq, ← hkeys]
    rw [getPendingRequestGo_entries _ _ hall]
    cases reqs <;> simp [entryOf, toItem, itemOf]
  · intro maxCount
    have hitems : (getPendingRequests maxCount
        (sendAll (⟨[], []⟩ : BridgeState α) reqs)).1 =
        (reqs.take maxCount).map itemOf := by
      simp only [getPendingRequests, hm, hq, ← hkeys]
      rw [getPendingRequestsGo_entries _ _ _ hall]
      rw [← List.map_take]
      simp [entryOf, toItem, itemOf, List.map_map]
      rfl
    refine ⟨hitems, ?_⟩
    rw [hitems]
    simp [List.length_take]

/-- C1 witness. -/
theorem fifo_retrieval_order_witness :
    (getPendingRequest (sendAll (⟨[], []⟩ : BridgeState Nat)
        [⟨"a", "x", 1, 0⟩, ⟨"b", "y", 2, 5⟩])).1 = some ⟨"a", "x", 1⟩ ∧
    (getPendingRequests 10 (sendAll (⟨[], []⟩ : BridgeState Nat)
        [⟨"a", "x", 1, 0⟩, ⟨"b", "y", 2, 5⟩])).1 =
      [⟨"a", "x", 1⟩, ⟨"b", "y", 2⟩] := by
  have h := fifo_retrieval_order (α := Nat)
    [⟨"a", "x", 1, 0⟩, ⟨"b", "y", 2, 5⟩] (by decide)
  refine ⟨h.1, ?_⟩
  rw [(h.2 10).1]
  decide

/-- C2 — exactly-once settlement: when `id` is live, `resolveRequest`
(`rejectRequest`) cancels the timer, removes the id from map and queue,
settles the promise and returns `true`; any later `resolveRequest` or
`rejectRequest` on a state where the id is gone returns `false`, performs no
settlement and leaves the state unchanged. -/
theorem exactly_once_settlement {α : Type} (s : BridgeState α) (id : String)
    (r : PendingRequest α) (h : mapGet s.pendingRequests id = some r)
    (v v2 : Option α) (e e2 : BridgeError) :
    (resolveRequest s id v).1 = true ∧
    (resolveRequest s id v).2.2 = [.resolved r.id v] ∧
    (resolveRequest s id v).2.1.pendingRequests = mapDelete s.pendingRequests id ∧
    (resolveRequest s id v).2.1.requestQueue = removeFromQueue s.requestQueue id ∧
    hasPendingRequest (resolveRequest s id v).2.1 id = false ∧
    timeoutFire (resolveRequest s id v).2.1 id = ((resolveRequest s id v).2.1, []) ∧
    (rejectRequest s id e).1 = true ∧
    (rejectRequest s id e).2.2 = [.rejected r.id e] ∧
    (rejectRequest s id e).2.1 = (resolveRequest s id v).2.1 ∧
    ∀ s' : BridgeState α, hasPendingRequest s' id = false →
      resolveRequest s' id v2 = (false, s', []) ∧
      rejectRequest s' id e2 = (false, s', []) := by
  have hres : resolveRequest s id v =
      (true, ⟨mapDelete s.pendingRequests id, removeFromQueue s.requestQueue id⟩,
       [.resolved r.id v]) := by
    simp [resolveRequest, h]
  have hrej : rejectRequest s id e =
      (true, ⟨mapDelete s.pendingRequests id, removeFromQueue s.requestQueue id⟩,
       [.rejected r.id e]) := by
    simp [rejectRequest, h]
  have hgone : mapGet (mapDelete s.pendingRequests id) id = none :=
    mapGet_mapDelete_self s.pendingRequests id
  refine ⟨by rw [hres], by rw [hres], by rw [hres], by rw [hres], ?_, ?_,
    by rw [hrej], by rw [hrej], by rw [hrej, hres], ?_⟩
  · rw [hres]
    simp [hasPendingRequest, mapHas, hgone]
  · rw [hres]
    simp [timeoutFire, mapHas, hgone]
  · intro s' hs'
    have hnone : mapGet s'.pendingRequests id = none := by
      cases hg : mapGet s'.pendingRequests id with
      | none => rfl
      | some w => simp [hasPendingRequest, mapHas, hg] at hs'
    exact ⟨by simp [resolveRequest, hnone], by simp [rejectRequest, hnone]⟩

/-- C2 witness. -/
theorem exactly_once_settlement_witness :
    (resolveRequest (⟨[("a", ⟨"a", "e", 1, 0⟩)], ["a"]⟩ : BridgeState Nat)
        "a" (some 7)).1 = true ∧
    (resolveRequest
        (resolveRequest (⟨[("a", ⟨"a", "e", 1, 0⟩)], ["a"]⟩ : BridgeState Nat)
          "a" (some 7)).2.1 "a" (some 8)).1 = false := by
  have h := exactly_once_settlement
    (⟨[("a", ⟨"a", "e", 1, 0⟩)], ["a"]⟩ : BridgeState Nat) "a"
    ⟨"a", "e", 1, 0⟩ (by decide) (some 7) (some 8)
    BridgeError.timeout BridgeError.timeout
  refine ⟨h.1, ?_⟩
  have h2 := (h.2.2.2.2.2.2.2.2.2 _ h.2.2.2.2.1).1
  rw [h2]

/-- C3 — timeout at 30 s with timer/sweep idempotence: a request whose age
exceeds `requestTimeout` is rejected with `Request timeout` and removed
from the ledger by whichever of the per-request timer and the periodic
sweep fires first; afterwards `hasPendingRequest` is `false` and the other
mechanism is a no-op on that id. -/
theorem timeout_settlement {α : Type} (s : BridgeState α) (id : String)
    (r : PendingRequest α) (now : Nat)
    (h : mapGet s.pendingRequests id = some r)
    (hexp : now - r.timestamp > requestTimeout) :
    ((timeoutFire s id).2 = [.rejected id .timeout] ∧
     hasPendingRequest (timeoutFire s id).1 id = false ∧
     timeoutFire (timeoutFire s id).1 id = ((timeoutFire s id).1, []) ∧
     (∀ ev ∈ (cleanupOldRequests now (timeoutFire s id).1).2,
        SettleEvent.targetId ev ≠ id) ∧
     hasPendingRequest (cleanupOldRequests now (timeoutFire s id).1).1 id = false) ∧
    (SettleEvent.rejected id BridgeError.timeout ∈ (cleanupOldRequests now s).2 ∧
     hasPendingRequest (cleanupOldRequests now s).1 id = false ∧
     timeoutFire (cleanupOldRequests now s).1 id = ((cleanupOldRequests now s).1, [])) := by
  have hs1 : timeoutFire s id =
      (⟨mapDelete s.pendingRequests id, removeFromQueue s.requestQueue id⟩,
       [.rejected id .timeout]) := by
    simp [timeoutFire, mapHas, h]
  have hgone : mapGet (mapDelete s.pendingRequests id) id = none :=
    mapGet_mapDelete_self s.pendingRequests id
  obtain ⟨hcl1, hcl2⟩ := cleanupGo_expired now s.pendingRequests s id r
    (mapGet_some_mem h) hexp
  constructor
  · refine ⟨by rw [hs1], ?_, ?_, ?_, ?_⟩
    · rw [hs1]
      simp [hasPendingRequest, mapHas, hgone]
    · rw [hs1]
      simp [timeoutFire, mapHas, hgone]
    · rw [hs1]
      intro ev hev
      obtain ⟨p, hp, hpe⟩ := cleanupGo_targets now _ _ ev hev
      rw [hpe]
      exact mapDelete_keys_ne p hp
    · rw [hs1]
      have := cleanupGo_get_none (α := α) now
        (mapDelete s.pendingRequests id)
        ⟨mapDelete s.pendingRequests id, removeFromQueue s.requestQueue id⟩ hgone
      simpa [cleanupOldRequests, hasPendingRequest, mapHas] using this
  · refine ⟨hcl1, ?_, ?_⟩
    · simpa [cleanupOldRequests, hasPendingRequest, mapHas] using hcl2
    · simp [cleanupOldRequests] at hcl2 ⊢
      simp [timeoutFire, mapHas, hcl2]

/-- C3 witness. -/
theorem timeout_settlement_witness :
    SettleEvent.rejected "a" BridgeError.timeout ∈
      (cleanupOldRequests 40000
        (⟨[("a", ⟨"a", "e", 1, 0⟩)], ["a"]⟩ : BridgeState Nat)).2 ∧
    hasPendingRequest
      (cleanupOldRequests 40000
        (⟨[("a", ⟨"a", "e", 1, 0⟩)], ["a"]⟩ : BridgeState Nat)).1 "a" = false := by
  have h := timeout_settlement
    (⟨[("a", ⟨"a", "e", 1, 0⟩)], ["a"]⟩ : BridgeState Nat) "a"
    ⟨"a", "e", 1, 0⟩ 40000 (by decide) (by decide)
  exact ⟨h.2.1, h.2.2.1⟩

theorem resolveRequests_cons {α : Type} (s : BridgeState α)
    (e : BatchResponse α) (rest : List (BatchResponse α)) :
    resolveRequests s (e :: rest) =
      ((if (batchStep s e).1
          then (resolveRequests (batchStep s e).2.1 rest).1.1 + 1
          else (resolveRequests (batchStep s e).2.1 rest).1.1,
        if (batchStep s e).1
          then (resolveRequests (batchStep s e).2.1 rest).1.2
          else (resolveRequests (batchStep s e).2.1 rest).1.2 + 1),
       (resolveRequests (batchStep s e).2.1 rest).2.1,
       (batchStep s e).2.2 ++ (resolveRequests (batchStep s e).2.1 rest).2.2) := by
  rcases hb : batchStep s e with ⟨ok, s1, evs⟩
  rcases hr : resolveRequests s1 rest with ⟨⟨rn, nn⟩, s2, evr⟩
  simp [resolveRequests, hb, hr]

theorem batchStep_error {α : Type} (s : BridgeState α) (e : BatchResponse α)
    (h : truthyStr e.error = true) :
    batchStep s e = rejectRequest s e.requestId (.peer (e.error.getD "")) := by
  cases he : e.error with
  | none => rw [he] at h; simp [truthyStr] at h
  | some er =>
    rw [he] at h
    simp only [truthyStr, Bool.not_eq_true'] at h
    simp [batchStep, he, h]

theorem batchStep_no_error {α : Type} (s : BridgeState α) (e : BatchResponse α)
    (h : truthyStr e.error = false) :
    batchStep s e = resolveRequest s e.requestId e.response := by
  cases he : e.error with
  | none => simp [batchStep, he]
  | some er =>
    rw [he] at h
    simp only [truthyStr, Bool.not_eq_false'] at h
    simp [batchStep, he, h]

theorem batchStep_ok_iff_live {α : Type} (s : BridgeState α) (e : BatchResponse α) :
    (batchStep s e).1 = hasPendingRequest s e.requestId := by
  cases hg : mapGet s.pendingRequests e.requestId with
  | none =>
    cases he : truthyStr e.error with
    | true => simp [batchStep_error s e he, rejectRequest, hg, hasPendingRequest, mapHas]
    | false => simp [batchStep_no_error s e he, resolveRequest, hg, hasPendingRequest, mapHas]
  | some r =>
    cases he : truthyStr e.error with
    | true => simp [batchStep_error s e he, rejectRequest, hg, hasPendingRequest, mapHas]
    | false => simp [batchStep_no_error s e he, resolveRequest, hg, hasPendingRequest, mapHas]

theorem batchStep_not_found {α : Type} (s : BridgeState α) (e : BatchResponse α)
    (h : hasPendingRequest s e.requestId = false) :
    batchStep s e = (false, s, []) := by
  have hg : mapGet s.pendingRequests e.requestId = none := by
    cases hg : mapGet s.pendingRequests e.requestId with
    | none => rfl
    | some w => simp [hasPendingRequest, mapHas, hg] at h
  cases he : truthyStr e.error with
  | true => simp [batchStep_error s e he, rejectRequest, hg]
  | false => simp [batchStep_no_error s e he, resolveRequest, hg]

theorem batchStep_events_len {α : Type} (s : BridgeState α) (e : BatchResponse α) :
    ((batchStep s e).2.2).length = if (batchStep s e).1 then 1 else 0 := by
  cases hg : mapGet s.pendingRequests e.requestId with
  | none =>
    cases he : truthyStr e.error with
    | true => simp [batchStep_error s e he, rejectRequest, hg]
    | false => simp [batchStep_no_error s e he, resolveRequest, hg]
  | some r =>
    cases he : truthyStr e.error with
    | true => simp [batchStep_error s e he, rejectRequest, hg]
    | false => simp [batchStep_no_error s e he, resolveRequest, hg]

theorem resolveRequests_tally {α : Type} :
    ∀ (rs : List (BatchResponse α)) (s : BridgeState α),
      (resolveRequests s rs).1.1 + (resolveRequests s rs).1.2 = rs.length := by
  intro rs
  induction rs with
  | nil => intro s; rfl
  | cons e rest ih =>
    intro s
    rw [resolveRequests_cons]
    have hih := ih (batchStep s e).2.1
    cases hok : (batchStep s e).1 <;> simp [hok] <;> omega

theorem resolveRequests_events_len {α : Type} :
    ∀ (rs : List (BatchResponse α)) (s : BridgeState α),
      ((resolveRequests s rs).2.2).length = (resolveRequests s rs).1.1 := by
  intro rs
  induction rs with
  | nil => intro s; rfl
  | cons e rest ih =>
    intro s
    rw [resolveRequests_cons]
    have hlen := batchStep_events_len s e
    have hih := ih (batchStep s e).2.1
    cases hok : (batchStep s e).1 <;> simp [hok] at hlen <;>
      simp [hok, hlen, hih] <;> omega

/-- C4 counterexample to the claim as stated: the batch entry
`{requestId:"a", response:7, error:"boom"}` carries a response, yet the
matching live request is rejected (the error field takes precedence), so
"each entry with a response resolves the matching live request" fails. -/
theorem batch_settlement_counterexample :
    (⟨"a", some 7, some "boom"⟩ : BatchResponse Nat).response = some 7 ∧
    (resolveRequests (⟨[("a", ⟨"a", "e", 1, 0⟩)], ["a"]⟩ : BridgeState Nat)
        [⟨"a", some 7, some "boom"⟩]).2.2 =
      [SettleEvent.rejected "a" (BridgeError.peer "boom")] := by
  decide

/-- C4 (amended) — batch settlement partial success: entries are processed
in the order given; an entry whose error field is a non-empty string
rejects the matching live request (even when a response is also present),
every other entry resolves it with the entry's response; unknown or
already-settled ids never raise an error (the entry is skipped with the
state unchanged); and the tally satisfies `resolved + notFound = number of
entries`, with `notFound` counting exactly the entries whose id was not
live when processed. -/
theorem batch_settlement {α : Type} (s : BridgeState α)
    (rs : List (BatchResponse α)) :
    (resolveRequests s rs).1.1 + (resolveRequests s rs).1.2 = rs.length ∧
    ((resolveRequests s rs).2.2).length = (resolveRequests s rs).1.1 ∧
    ∀ (t : BridgeState α) (e : BatchResponse α) (rest : List (BatchResponse α)),
      (truthyStr e.error = true →
        batchStep t e = rejectRequest t e.requestId (.peer (e.error.getD ""))) ∧
      (truthyStr e.error = false →
        batchStep t e = resolveRequest t e.requestId e.response) ∧
      (hasPendingRequest t e.requestId = false → batchStep t e = (false, t, [])) ∧
      (resolveRequests t (e :: rest)).2.2 =
        (batchStep t e).2.2 ++ (resolveRequests (batchStep t e).2.1 rest).2.2 ∧
      (resolveRequests t (e :: rest)).1.2 =
        (if hasPendingRequest t e.requestId then 0 else 1) +
          (resolveRequests (batchStep t e).2.1 rest).1.2 ∧
      (resolveRequests t (e :: rest)).1.1 =
        (if hasPendingRequest t e.requestId then 1 else 0) +
          (resolveRequests (batchStep t e).2.1 rest).1.1 := by
  refine ⟨resolveRequests_tally rs s, resolveRequests_events_len rs s, ?_⟩
  intro t e rest
  refine ⟨batchStep_error t e, batchStep_no_error t e, batchStep_not_found t e,
    ?_, ?_, ?_⟩
  · rw [resolveRequests_cons]
  · rw [resolveRequests_cons, ← batchStep_ok_iff_live]
    cases hok : (batchStep t e).1 <;> simp <;> omega
  · rw [resolveRequests_cons, ← batchStep_ok_iff_live]
    cases hok : (batchStep t e).1 <;> simp <;> omega

/-- C4 witness. -/
theorem batch_settlement_witness :
    (resolveRequests (⟨[("a", ⟨"a", "e", 1, 0⟩)], ["a"]⟩ : BridgeState Nat)
        [⟨"a", some 7, none⟩, ⟨"zz", some 2, none⟩]).1.1 +
      (resolveRequests (⟨[("a", ⟨"a", "e", 1, 0⟩)], ["a"]⟩ : BridgeState Nat)
        [⟨"a", some 7, none⟩, ⟨"zz", some 2, none⟩]).1.2 = 2 ∧
    batchStep (⟨[], []⟩ : BridgeState Nat) ⟨"zz", some 2, none⟩ =
      (false, ⟨[], []⟩, []) := by
  have h := batch_settlement (⟨[("a", ⟨"a", "e", 1, 0⟩)], ["a"]⟩ : BridgeState Nat)
    [⟨"a", some 7, none⟩, ⟨"zz", some 2, none⟩]
  refine ⟨h.1, ?_⟩
  exact (h.2.2 ⟨[], []⟩ ⟨"zz", some 2, none⟩ []).2.2.1 (by decide)

/-- C5 — disconnect clears all: `clearAllPendingRequests` rejects every
still-pending request with `Connection closed` (and any still-armed timer is
afterwards a no-op), leaving map and queue empty, so `getPendingCount` is 0
and `getPendingRequest` yields nothing; `POST /disconnect` marks the plugin
not-ready, performs exactly this clearing and answers `{success:true}`. -/
theorem disconnect_clears_all {α : Type} (c : ConnState) (s : BridgeState α)
    (id : String) :
    (clearAllPendingRequests s).2 =
      s.pendingRequests.map
        (fun p => SettleEvent.rejected p.2.id BridgeError.connectionClosed) ∧
    (clearAllPendingRequests s).1.pendingRequests = [] ∧
    (clearAllPendingRequests s).1.requestQueue = [] ∧
    getPendingCount (clearAllPendingRequests s).1 = 0 ∧
    (getPendingRequest (clearAllPendingRequests s).1).1 = none ∧
    timeoutFire (clearAllPendingRequests s).1 id = ((clearAllPendingRequests s).1, []) ∧
    disconnectHandler c s =
      (⟨200, true⟩, { c with pluginConnected := false },
       (clearAllPendingRequests s).1, (clearAllPendingRequests s).2) := by
  exact ⟨rfl, rfl, rfl, rfl, rfl, rfl, rfl⟩

/-- C6 counterexample to the claim as stated: the body `{requestId: ""}`
carries a requestId that is unknown (nothing is pending), yet the endpoint
answers 400, not 404 — the empty string is falsy, so the handler treats it
as an absent requestId. -/
theorem response_endpoint_counterexample :
    (postResponseV2 (⟨some "", none, none, none⟩ : ResponseBody Nat)
        ⟨[], []⟩).1.status = 400 ∧
    hasPendingRequest (⟨[], []⟩ : BridgeState Nat) "" = false := by
  decide

/-- C6 (amended) — response endpoint error shapes: a body carrying a
`responses` array always gets 200 with `{success:true, resolved, notFound}`;
a body without one but with a truthy (non-empty) `requestId` that is unknown
or already settled gets 404; a body carrying neither a `responses` array nor
a non-empty `requestId` gets 400. -/
theorem response_endpoint_shapes {α : Type} (body : ResponseBody α)
    (s : BridgeState α) :
    (∀ rs, body.responses = some rs →
      (postResponseV2 body s).1 =
        ⟨200, true, some (resolveRequests s rs).1.1,
         some (resolveRequests s rs).1.2, none⟩) ∧
    (body.responses = none → truthyStr body.requestId = true →
      hasPendingRequest s (body.requestId.getD "") = false →
      postResponseV2 body s =
        (⟨404, false, none, none, some "Request not found or already resolved"⟩,
         s, [])) ∧
    (body.responses = none → truthyStr body.requestId = false →
      postResponseV2 body s =
        (⟨400, false, none, none, some "requestId or responses array is required"⟩,
         s, [])) := by
  refine ⟨?_, ?_, ?_⟩
  · intro rs hrs
    simp [postResponseV2, hrs]
  · intro hnone htr hhas
    simp [postResponseV2, hnone, htr, hhas]
  · intro hnone htr
    simp [postResponseV2, hnone, htr]

/-- C6 witness. -/
theorem response_endpoint_shapes_witness :
    postResponseV2 (⟨none, none, none, none⟩ : ResponseBody Nat) ⟨[], []⟩ =
      (⟨400, false, none, none, some "requestId or responses array is required"⟩,
       (⟨[], []⟩ : BridgeState Nat), []) := by
  exact (response_endpoint_shapes (⟨none, none, none, none⟩ : ResponseBody Nat)
    ⟨[], []⟩).2.2 rfl rfl

/-- C7 — poll gated on dispatcher liveness without touching the ledger:
when dispatcher liveness is false, `GET /poll` records fresh plugin
activity (marking the plugin connected), answers 503 with
`mcpConnected:false` and an empty `requests` array, and returns the bridge
state exactly as it was — the ledger is never consulted. -/
theorem poll_gate_inactive {α : Type} (c : ConnState) (s : BridgeState α)
    (q : PollQuery) (now : Nat) (env : Nat → BridgeState α)
    (h : isMCPServerActiveV2 c = false) :
    pollHandlerV2 c s q now env =
      (⟨503, some "MCP server not connected", [], false, true, none⟩,
       { c with pluginConnected := true, lastPluginActivity := now }, s) := by
  have hflag : c.mcpServerActive = false := h
  simp [pollHandlerV2, isMCPServerActiveV2, hflag]

/-- C7 witness. -/
theorem poll_gate_inactive_witness :
    pollHandlerV2 initConn (⟨[("a", ⟨"a", "e", 1, 0⟩)], ["a"]⟩ : BridgeState Nat)
      ⟨none, none, none⟩ 5 (fun _ => ⟨[], []⟩) =
      (⟨503, some "MCP server not connected", [], false, true, none⟩,
       { initConn with pluginConnected := true, lastPluginActivity := 5 },
       ⟨[("a", ⟨"a", "e", 1, 0⟩)], ["a"]⟩) := by
  exact poll_gate_inactive initConn _ ⟨none, none, none⟩ 5 (fun _ => ⟨[], []⟩) rfl

theorem getPendingRequestsGo_length {α : Type}
    (m : List (String × PendingRequest α)) :
    ∀ (k : Nat) (q : List String), ((getPendingRequestsGo m k q).1).length ≤ k := by
  intro k q
  induction q generalizing k with
  | nil => cases k <;> simp [getPendingRequestsGo]
  | cons id rest ih =>
    cases k with
    | zero => simp [getPendingRequestsGo]
    | succ k =>
      cases hg : mapGet m id with
      | some r =>
        simpa [getPendingRequestsGo, hg, Nat.succ_le_succ_iff] using ih k
      | none =>
        simpa [getPendingRequestsGo, hg] using ih (k + 1)

theorem waitGo_all_empty {α : Type} (env : Nat → BridgeState α) (mb : Nat) :
    ∀ (fuel k0 : Nat),
      (∀ j, j < fuel → (getPendingRequests mb (env (k0 + j))).1 = []) →
      (waitGo env mb fuel k0).1 = [] := by
  intro fuel
  induction fuel with
  | zero => intro k0 _; rfl
  | succ f ih =>
    intro k0 h
    have h0 : (getPendingRequests mb (env k0)).1 = [] := by
      simpa using h 0 (Nat.succ_pos f)
    simp only [waitGo, h0, List.isEmpty_nil, if_true]
    exact ih (k0 + 1) fun j hj => by
      have := h (j + 1) (by omega)
      simpa [show k0 + (j + 1) = k0 + 1 + j by omega] using this

theorem waitGo_first_batch {α : Type} (env : Nat → BridgeState α) (mb : Nat) :
    ∀ (fuel k0 k : Nat), k0 ≤ k → k < k0 + fuel →
      (∀ j, k0 ≤ j → j < k → (getPendingRequests mb (env j)).1 = []) →
      (getPendingRequests mb (env k)).1 ≠ [] →
      waitGo env mb fuel k0 = getPendingRequests mb (env k) := by
  intro fuel
  induction fuel with
  | zero => intro k0 k h1 h2 _ _; omega
  | succ f ih =>
    intro k0 k hle hlt hempty hne
    by_cases hk : k = k0
    · subst hk
      have hni : ¬ ((getPendingRequests mb (env k)).1.isEmpty = true) := by
        cases hi : (getPendingRequests mb (env k)).1 <;> simp_all
      simp [waitGo, hni]
    · have hlt0 : k0 < k := lt_of_le_of_ne hle (Ne.symm hk)
      have h0 : (getPendingRequests mb (env k0)).1 = [] := hempty k0 le_rfl hlt0
      simp only [waitGo, h0, List.isEmpty_nil, if_true]
      exact ih (k0 + 1) k (by omega) (by omega)
        (fun j hj1 hj2 => hempty j (by omega) hj2) hne

/-- C8 — long-poll bounded wait: the effective wait and batch size are
clamped (`maxWait = min(parsed maxWait or 5000, 30000)`,
`maxBatch = min(parsed maxBatch or 10, 50)`); the loop checks the ledger
exactly at the 50 ms multiples below the wait budget; each check hands back
at most `maxBatch` requests; and the (terminating) loop returns the first
non-empty batch it observes, or the empty list once the wait has elapsed. -/
theorem longpoll_bounded_wait {α : Type} (env : Nat → BridgeState α)
    (pw pb : Option Nat) :
    clampMaxWait pw ≤ 30000 ∧
    clampMaxBatch pb ≤ 50 ∧
    clampMaxWait none = 5000 ∧
    (∀ w, w ≠ 0 → clampMaxWait (some w) = min w 30000) ∧
    clampMaxBatch none = 10 ∧
    (∀ b, b ≠ 0 → clampMaxBatch (some b) = min b 50) ∧
    (∀ k, k < (clampMaxWait pw + pollInterval - 1) / pollInterval ↔
        pollInterval * k < clampMaxWait pw) ∧
    (∀ s : BridgeState α,
      ((getPendingRequests (clampMaxBatch pb) s).1).length ≤ clampMaxBatch pb) ∧
    ((∀ k, pollInterval * k < clampMaxWait pw →
        (getPendingRequests (clampMaxBatch pb) (env k)).1 = []) →
      (waitForRequests env (clampMaxWait pw) (clampMaxBatch pb)).1 = []) ∧
    (∀ k, pollInterval * k < clampMaxWait pw →
      (∀ j, j < k → (getPendingRequests (clampMaxBatch pb) (env j)).1 = []) →
      (getPendingRequests (clampMaxBatch pb) (env k)).1 ≠ [] →
      waitForRequests env (clampMaxWait pw) (clampMaxBatch pb) =
        getPendingRequests (clampMaxBatch pb) (env k)) := by
  have hiff : ∀ k, k < (clampMaxWait pw + pollInterval - 1) / pollInterval ↔
      pollInterval * k < clampMaxWait pw := by
    intro k
    simp only [pollInterval]
    omega
  refine ⟨min_le_right _ _, min_le_right _ _, rfl, ?_, rfl, ?_, hiff, ?_, ?_, ?_⟩
  · intro w hw
    simp [clampMaxWait, parseOr, hw]
  · intro b hb
    simp [clampMaxBatch, parseOr, hb]
  · intro s
    exact getPendingRequestsGo_length s.pendingRequests _ _
  · intro h
    exact waitGo_all_empty env _ _ 0 fun j hj => by
      simpa using h j ((hiff j).1 hj)
  · intro k hk hbefore hne
    exact waitGo_first_batch env _ _ 0 k (Nat.zero_le k)
      (by simpa using (hiff k).2 hk) (fun j _ hj2 => hbefore j hj2) hne

/-- C8 witness. -/
theorem longpoll_bounded_wait_witness :
    clampMaxWait none = 5000 ∧
    (waitForRequests (fun _ => (⟨[], []⟩ : BridgeState Nat))
      (clampMaxWait none) (clampMaxBatch none)).1 = [] := by
  have h := longpoll_bounded_wait (fun _ => (⟨[], []⟩ : BridgeState Nat)) none none
  exact ⟨h.2.2.1, h.2.2.2.2.2.2.2.2.1 fun k _ => rfl⟩

/-- C9 — the two observed revisions of the dispatcher-liveness check
compute different functions: the earlier one is the active flag AND a
15-second activity window, the later one is the flag alone; in the
reachable state obtained by activating the dispatcher at time 0 and
observing at time 20000 (more than 15 s without activity) they disagree. -/
theorem dispatcher_liveness_variants :
    (∀ (c : ConnState) (now : Nat),
      isMCPServerActiveV1 c now =
        (c.mcpServerActive && decide (now - c.lastMCPActivity < 15000))) ∧
    (∀ c : ConnState, isMCPServerActiveV2 c = c.mcpServerActive) ∧
    isMCPServerActiveV1 (setMCPServerActive initConn true 0) 20000 = false ∧
    isMCPServerActiveV2 (setMCPServerActive initConn true 0) = true := by
  exact ⟨fun _ _ => rfl, fun _ => rfl, by decide, by decide⟩

theorem Wf_sendRequest {α : Type} {s : BridgeState α} (hwf : Wf s)
    {id : String} (ep : String) (d : α) (t : Nat)
    (hh : hasPendingRequest s id = false) :
    Wf (sendRequest s id ep d t) := by
  have hget : mapGet s.pendingRequests id = none := by
    cases hg : mapGet s.pendingRequests id with
    | none => rfl
    | some w => simp [hasPendingRequest, mapHas, hg] at hh
  have hset := mapSet_fresh (m := s.pendingRequests)
    (⟨id, ep, d, t⟩ : PendingRequest α) hget
  have hnotmem := not_mem_of_mapGet_eq_none hget
  constructor
  · simp [sendRequest, hset, hwf.1]
  · simp only [sendRequest, hset, List.map_append, List.map_cons, List.map_nil]
    exact List.Nodup.append hwf.2 (List.nodup_singleton _)
      (List.disjoint_singleton.2 hnotmem)

theorem Wf_resolveRequest {α : Type} {s : BridgeState α} (hwf : Wf s)
    (id : String) (v : Option α) : Wf (resolveRequest s id v).2.1 := by
  cases hg : mapGet s.pendingRequests id with
  | none => simpa [resolveRequest, hg] using hwf
  | some r => simpa [resolveRequest, hg] using Wf_settled hwf id

theorem Wf_rejectRequest {α : Type} {s : BridgeState α} (hwf : Wf s)
    (id : String) (e : BridgeError) : Wf (rejectRequest s id e).2.1 := by
  cases hg : mapGet s.pendingRequests id with
  | none => simpa [rejectRequest, hg] using hwf
  | some r => simpa [rejectRequest, hg] using Wf_settled hwf id

theorem Wf_batchStep {α : Type} {s : BridgeState α} (hwf : Wf s)
    (e : BatchResponse α) : Wf (batchStep s e).2.1 := by
  cases he : truthyStr e.error with
  | true => rw [batchStep_error s e he]; exact Wf_rejectRequest hwf _ _
  | false => rw [batchStep_no_error s e he]; exact Wf_resolveRequest hwf _ _

theorem Wf_resolveRequests {α : Type} :
    ∀ (rs : List (BatchResponse α)) (s : BridgeState α), Wf s →
      Wf (resolveRequests s rs).2.1 := by
  intro rs
  induction rs with
  | nil => intro s hwf; exact hwf
  | cons e rest ih =>
    intro s hwf
    rw [resolveRequests_cons]
    exact ih _ (Wf_batchStep hwf e)

theorem Wf_timeoutFire {α : Type} {s : BridgeState α} (hwf : Wf s)
    (id : String) : Wf (timeoutFire s id).1 := by
  by_cases hh : mapHas s.pendingRequests id = true
  · simpa [timeoutFire, hh] using Wf_settled hwf id
  · simp only [Bool.not_eq_true] at hh
    simpa [timeoutFire, hh] using hwf

theorem Wf_cleanupGo {α : Type} (now : Nat) :
    ∀ (l : List (String × PendingRequest α)) (s : BridgeState α), Wf s →
      Wf (cleanupGo now l s).1 := by
  intro l
  induction l with
  | nil => intro s hwf; exact hwf
  | cons p rest ih =>
    intro s hwf
    obtain ⟨id, r⟩ := p
    by_cases hc : now - r.timestamp > requestTimeout
    · simp only [cleanupGo, if_pos hc]
      exact ih _ (Wf_settled hwf id)
    · simp only [cleanupGo, if_neg hc]
      exact ih _ hwf

/-- C10 — the FIFO queue exactly mirrors the live map: the invariant `Wf`
(queue = map keys, each once, in enqueue order) is preserved by every
bridge operation (`sendRequest` with a fresh id, settlement in all its
forms, the timer callback, the sweep, and clear-all); under it
`getPendingCount` equals the queue length and the stale-skip branches of
the two getters never fire (they return the state unchanged). -/
theorem queue_mirrors_map {α : Type} :
    (∀ (s : BridgeState α) (id ep : String) (d : α) (t : Nat),
      Wf s → hasPendingRequest s id = false → Wf (sendRequest s id ep d t)) ∧
    (∀ s : BridgeState α, Wf s → (getPendingRequest s).2 = s) ∧
    (∀ (s : BridgeState α) (k : Nat), Wf s → (getPendingRequests k s).2 = s) ∧
    (∀ (s : BridgeState α) (id : String) (v : Option α),
      Wf s → Wf (resolveRequest s id v).2.1) ∧
    (∀ (s : BridgeState α) (id : String) (e : BridgeError),
      Wf s → Wf (rejectRequest s id e).2.1) ∧
    (∀ (s : BridgeState α) (rs : List (BatchResponse α)),
      Wf s → Wf (resolveRequests s rs).2.1) ∧
    (∀ (s : BridgeState α) (id : String), Wf s → Wf (timeoutFire s id).1) ∧
    (∀ (s : BridgeState α) (now : Nat), Wf s → Wf (cleanupOldRequests now s).1) ∧
    (∀ s : BridgeState α, Wf (clearAllPendingRequests s).1) ∧
    (∀ s : BridgeState α, Wf s → getPendingCount s = s.requestQueue.length) := by
  refine ⟨fun s id ep d t hwf hh => Wf_sendRequest hwf ep d t hh,
    ?_, ?_,
    fun s id v hwf => Wf_resolveRequest hwf id v,
    fun s id e hwf => Wf_rejectRequest hwf id e,
    fun s rs hwf => Wf_resolveRequests rs s hwf,
    fun s id hwf => Wf_timeoutFire hwf id,
    fun s now hwf => Wf_cleanupGo now s.pendingRequests s hwf,
    fun s => ⟨rfl, List.nodup_nil⟩, ?_⟩
  · intro s hwf
    have h2 := getPendingRequestGo_all_live s.pendingRequests s.requestQueue
      (allLive_of_wf hwf)
    simp [getPendingRequest, h2]
  · intro s k hwf
    have h2 := getPendingRequestsGo_all_live s.pendingRequests k s.requestQueue
      (allLive_of_wf hwf)
    simp [getPendingRequests, h2]
  · intro s hwf
    simp [getPendingCount, hwf.1]

/-- C10 witness. -/
theorem queue_mirrors_map_witness :
    getPendingCount (⟨[("a", ⟨"a", "e", 1, 0⟩)], ["a"]⟩ : BridgeState Nat) =
      (["a"] : List String).length ∧
    (getPendingRequest
      (⟨[("a", ⟨"a", "e", 1, 0⟩)], ["a"]⟩ : BridgeState Nat)).2 =
      (⟨[("a", ⟨"a", "e", 1, 0⟩)], ["a"]⟩ : BridgeState Nat) := by
  have h := queue_mirrors_map (α := Nat)
  refine ⟨?_, ?_⟩
  · exact h.2.2.2.2.2.2.2.2.2 _ (by constructor <;> decide)
  · exact h.2.1 _ (by constructor <;> decide)
example :
    (resolveRequest (⟨[("a", ⟨"a", "e", 1, 0⟩)], ["a"]⟩ : BridgeState Nat) "a"
      (some 7)).1 = true := by decide
example : clampMaxWait (some 0) = 5000 := by decide
example : clampMaxWait (some 60000) = 30000 := by decide
example :
    (postResponseV2 (⟨some "", none, none, none⟩ : ResponseBody Nat)
      ⟨[], []⟩).1.status = 400 := by decide
